import Mathlib

/-!
Verification of the showfs archive read cache against its specification.

The definitions below are a shallow embedding of the Rust sources:
  * `src/archive/page.rs`  — page sizing, the page allocator, the page manager
    with its LRU eviction walk;
  * `src/archive/reader.rs` — the member cache state machine, the loading
    state, and the shared seek implementation;
  * `src/archive/mod.rs`   — the POSIX file-type mapping;
  * `src/fs.rs`            — the open-flags check.

Machine integers are modelled as `Nat`/`Int` with explicit `% 2 ^ 64`
wrapping where the Rust code relies on release-mode wrapping casts.
-/

namespace ShowFS

/-- Page size constant from `page.rs`: `const PAGE_SIZE: usize = 4096`. -/
def PAGE_SIZE : Nat := 4096

/-- `const PAGE_MAP_LEN: usize = PAGE_SIZE / 4` — u32 offsets per map page. -/
def PAGE_MAP_LEN : Nat := PAGE_SIZE / 4

/-- The `u64`/`usize` modulus of the 64-bit target: wrapping additions and
casts reduce modulo this. -/
def U64 : Nat := 2 ^ 64

namespace AllocatedPage

/-- Byte size of the `#[repr(C)] struct AllocatedPage` header on a 64-bit
target: `lru: Link` (two pointers, 16) + `lru_head: *mut` (8) +
`referencer: Rc` (8) + `base: PagePtr` (8) + `data_pages: u32` (4) +
`use_count: u32` (4) = 48. -/
def header_bytes : Nat := 48

/-- `AllocatedPage::embed_size()` = `PAGE_SIZE - mem::size_of::<AllocatedPage>()`. -/
def embed_size : Nat := PAGE_SIZE - header_bytes

/-- `AllocatedPage::embed_map_len()` = `embed_size() / mem::size_of::<u32>()`. -/
def embed_map_len : Nat := embed_size / 4

/-- `AllocatedPage::calc_page_count(bytes)`: returns
`(data page count, relative-map page count)`.  The rounding sums
`bytes + PAGE_SIZE - 1` and `data_pages + PAGE_MAP_LEN - 1` are `usize`
additions; a release build wraps them modulo `2^64` (a debug build panics
on the overflow), so the model reduces them modulo `U64`. -/
def calc_page_count (bytes : Nat) : Nat × Nat :=
  let data_pages := if bytes ≤ embed_size then 0 else (bytes + PAGE_SIZE - 1) % U64 / PAGE_SIZE
  let rel_map_pages :=
    if data_pages ≤ embed_map_len then 0
    else (data_pages + PAGE_MAP_LEN - 1) % U64 / PAGE_MAP_LEN
  (data_pages, rel_map_pages)

/-- `AllocatedPage::need_pages(bytes)`: header + rel mapping + data. -/
def need_pages (bytes : Nat) : Nat :=
  let dm := calc_page_count bytes
  dm.1 + dm.2 + 1

/-- Length of the `i`-th second-level map slice filled by
`AllocatedPage::allocate`: the last relative-map page is only partially
filled when `data_pages % PAGE_MAP_LEN > 0`. -/
def rel_map_len (rel_map_pages data_pages i : Nat) : Nat :=
  if i + 1 = rel_map_pages ∧ 0 < data_pages % PAGE_MAP_LEN then
    data_pages % PAGE_MAP_LEN
  else PAGE_MAP_LEN

/-- Pages drawn from the allocator for the second-level (relative) maps in
`AllocatedPage::allocate`: one batch of `rel_map_len` pages per map page. -/
def second_level_consumed (data_pages rel_map_pages : Nat) : Nat :=
  ∑ i ∈ Finset.range rel_map_pages, rel_map_len rel_map_pages data_pages i

/-- Total number of pages `AllocatedPage::allocate(bytes)` draws from the
allocator: one header page, then `map_len` first-level pages, then the
second-level batches. -/
def allocate_consumed (bytes : Nat) : Nat :=
  let dm := calc_page_count bytes
  let map_len := if 0 < dm.2 then dm.2 else dm.1
  1 + map_len + second_level_consumed dm.1 dm.2

end AllocatedPage

/-!
`PageAllocator` (`page.rs`).  A free run is a maximal span of consecutive
free pages whose `FreePage` node lives in the last page of the span; a run
is modelled by the arena index of its first page (`FreePage::top()`) and
its page count.  The free list is the list of runs, front first.
-/

/-- One free run: `top` is the arena index of the first page of the span
(the page `FreePage::top()` points at), `count` the number of pages. -/
structure Run where
  top : Nat
  count : Nat
deriving DecidableEq, Repr

/-- Pages covered by a run, as a finite set of arena indices. -/
def Run.pages (r : Run) : Finset Nat := Finset.Ico r.top (r.top + r.count)

/-- `struct PageAllocator { free_list, free_count }` (the `Buffer` arena
itself carries no allocator state). -/
structure PageAllocator where
  free_list : List Run
  free_count : Nat
deriving DecidableEq, Repr

/-- `PageAllocator::new(max_pages)`: a single run of `max_pages` starting
at the arena base. -/
def PageAllocator.init (max_pages : Nat) : PageAllocator :=
  { free_list := [{ top := 0, count := max_pages }], free_count := max_pages }

/-- `PageAllocator::allocate`: `None` when `free_count == 0`; otherwise
decrement `free_count` and take the top page of the front run
(`FreePage::reave_page`), unlinking the run when it empties. -/
def PageAllocator.allocate (s : PageAllocator) : Option (Nat × PageAllocator) :=
  if s.free_count = 0 then none
  else
    let fc := s.free_count - 1
    match s.free_list with
    | [] => none
    | r :: rest =>
      if r.count - 1 = 0 then some (r.top, { free_list := rest, free_count := fc })
      else some (r.top, { free_list := { top := r.top + 1, count := r.count - 1 } :: rest,
                          free_count := fc })

/-- `PageAllocator::free(page)`: increment `free_count`; if the freed page
is exactly one page before the front run's top (`page.offset(1) == front.top()`),
enlarge that run in place; otherwise construct a fresh single-page run in
the freed page and push it at the front. -/
def PageAllocator.free (s : PageAllocator) (p : Nat) : PageAllocator :=
  let fc := s.free_count + 1
  match s.free_list with
  | front :: rest =>
    if p + 1 = front.top then
      { free_list := { top := p, count := front.count + 1 } :: rest, free_count := fc }
    else
      { free_list := { top := p, count := 1 } :: front :: rest, free_count := fc }
  | [] => { free_list := [{ top := p, count := 1 }], free_count := fc }

/-- Total pages recorded by the free list. -/
def sumRuns (l : List Run) : Nat := (l.map Run.count).sum

/-- Allocator bookkeeping invariant: `free_count` equals the total of the
run counts in the free list, and every run covers at least one page. -/
def PageAllocator.Inv (s : PageAllocator) : Prop :=
  s.free_count = sumRuns s.free_list ∧ ∀ r ∈ s.free_list, 0 < r.count

/-- States of the page allocator reachable from `PageAllocator::new(n)` by
`allocate` and `free` calls. -/
inductive PageAllocator.Reach (n : Nat) : PageAllocator → Prop
  | init : PageAllocator.Reach n (PageAllocator.init n)
  | step_alloc {s : PageAllocator} {p : Nat} {t : PageAllocator} :
      PageAllocator.Reach n s → s.allocate = some (p, t) → PageAllocator.Reach n t
  | step_free {s : PageAllocator} (p : Nat) :
      PageAllocator.Reach n s → PageAllocator.Reach n (s.free p)

/-!
`PageManager` (`page.rs`).  The LRU is the list of allocated-page headers,
most recently used first; `iter_reverse_mut` walks it tail→head.  For the
eviction logic only a header's `use_count` and its total page count
(`AllocatedPage::all_pages`) matter.
-/

/-- An allocated-page header as seen by the eviction walk: total pages of
the allocation (`all_pages`, header + maps + data) and its `use_count`. -/
structure Header where
  pages : Nat
  use_count : Nat
deriving DecidableEq, Repr

/-- `PageManager { use_page_lru, allocator }`: the LRU headers (front =
most recently used) plus the allocator's free page count. -/
structure PageManager where
  free_count : Nat
  lru : List Header
deriving DecidableEq, Repr

/-- `PageManager::free_old_pages(lwm_pages)` on the tail→head traversal
order (the input list is the reversed LRU).  Returns the surviving headers
in traversal order, the number of pages freed, and the success flag:
used headers are skipped; an unused header is deallocated, and the walk
returns `true` as soon as the victim's pages reach the remaining shortfall,
else continues with the shortfall reduced. -/
def free_old_pages : Nat → List Header → List Header × Nat × Bool
  | _, [] => ([], 0, false)
  | lwm, h :: rest =>
    if 0 < h.use_count then
      let r := free_old_pages lwm rest
      (h :: r.1, r.2.1, r.2.2)
    else if lwm ≤ h.pages then (rest, h.pages, true)
    else
      let r := free_old_pages (lwm - h.pages) rest
      (r.1, r.2.1 + h.pages, r.2.2)

/-- `PageManager::allocate(bytes)`: if the free pages do not cover
`need_pages bytes`, run the eviction walk for the shortfall and fail with
`None` when it fails; otherwise delegate to `AllocatedPage::allocate`,
which consumes `need_pages bytes` pages and pushes the new header (with
`use_count = 0`) at the LRU front. -/
def PageManager.allocate (pm : PageManager) (bytes : Nat) : Option PageManager :=
  let need := AllocatedPage.need_pages bytes
  if need ≤ pm.free_count then
    some { free_count := pm.free_count - need,
           lru := { pages := need, use_count := 0 } :: pm.lru }
  else
    let r := free_old_pages (need - pm.free_count) pm.lru.reverse
    if r.2.2 then
      some { free_count := pm.free_count + r.2.1 - need,
             lru := { pages := need, use_count := 0 } :: r.1.reverse }
    else none

/-- Total pages held by the unused (`use_count == 0`) headers of a list. -/
def sumUnused (l : List Header) : Nat :=
  ((l.filter fun h => h.use_count = 0).map Header.pages).sum

/-- The victims the specification describes: walking tail→head, skip used
headers, deallocate unused ones, stop with the first victim whose pages
meet the remaining shortfall. -/
def evictionVictims : Nat → List Header → List Header
  | _, [] => []
  | lwm, h :: rest =>
    if 0 < h.use_count then evictionVictims lwm rest
    else if lwm ≤ h.pages then [h]
    else h :: evictionVictims (lwm - h.pages) rest

/-!
`reader.rs`.  `LoadingState::read_to_at_least` drives an underlying
forward-only reader (`std::io::Read`) into the page slices.  The
underlying reader is modelled by the number of bytes left in its stream
together with an oracle list of chunk sizes: a call `read(buf)` delivers
`min (min chunk buf.len) remaining` bytes and consumes one oracle entry;
a delivery of `0` is end-of-stream.  Page slices are modelled by their
lengths, as yielded by `get_slices_mut(cached_size)`.
-/

/-- The inner `while n < slice.len()` loop of `read_to_at_least`, filling
one slice: returns `(n, remaining, chunks, eof)` where `n` is the number
of bytes written into the slice and `eof` records that the reader
returned `0` (the source then sets `self.reader = None`). -/
def fillSlice (sliceLen : Nat) : Nat → Nat → List Nat → Nat × Nat × List Nat × Bool
  | n, rem, chunks =>
    if sliceLen ≤ n then (n, rem, chunks, false)
    else
      match chunks with
      | [] => (n, rem, [], true)
      | c :: rest =>
        let nn := min (min c (sliceLen - n)) rem
        if nn = 0 then (n, rem, rest, true)
        else fillSlice sliceLen (n + nn) (rem - nn) rest

/-- The outer loop of `read_to_at_least`: while `cached_size < read_to`,
take the next slice (none left → close the reader), fill it; a zero-length
delivery closes the reader and returns the bytes cached so far.  Returns
the new `cached_size` and the surviving reader (`none` once EOF). -/
def readLoop (read_to : Nat) : List Nat → Nat → Nat → List Nat → Nat × Option (Nat × List Nat)
  | slices, cached, rem, chunks =>
    if read_to ≤ cached then (cached, some (rem, chunks))
    else
      match slices with
      | [] => (cached, none)
      | s :: rest =>
        let r := fillSlice s 0 rem chunks
        if r.2.2.2 then (cached + r.1, none)
        else readLoop read_to rest (cached + r.1) r.2.1 r.2.2.1

/-- `struct LoadingState { reader, cached_size, page }`: the reader is
`Some (remaining, oracle)` while live, `None` after EOF.  The `page`
strong reference is kept implicit; the slices it yields are passed to
`read_to_at_least` explicitly. -/
structure LoadingState where
  reader : Option (Nat × List Nat)
  cached_size : Nat
deriving DecidableEq, Repr

/-- `LoadingState::is_eof()`: `self.reader.is_none()`. -/
def LoadingState.is_eof (st : LoadingState) : Bool := st.reader.isNone

/-- Bytes the underlying reader can still deliver (0 once closed). -/
def LoadingState.readerRemaining (st : LoadingState) : Nat :=
  match st.reader with
  | none => 0
  | some r => r.1

/-- `LoadingState::read_to_at_least(read_to)`: returns immediately when at
EOF or when `cached_size` already covers `read_to`; otherwise runs the
slice-filling loop over `page.get_slices_mut(cached_size)` (passed here as
`slices`).  Returns the `Ok` value together with the new state. -/
def LoadingState.read_to_at_least (st : LoadingState) (slices : List Nat)
    (read_to : Nat) : Nat × LoadingState :=
  match st.reader with
  | none => (st.cached_size, st)
  | some (rem, chunks) =>
    if read_to ≤ st.cached_size then (st.cached_size, st)
    else
      match readLoop read_to slices st.cached_size rem chunks with
      | (cached, none) => (cached, { reader := none, cached_size := cached })
      | (cached, some r) => (cached, { reader := some r, cached_size := cached })

/-!
The shared `impl_seek!` implementation of `Seek` for `CacheReader` and
`LoadingReader` (`reader.rs`).  `self.pos` and `self.size` are `usize`;
`SeekFrom::Start` carries a `u64`, `End` and `Current` carry an `i64`.
Casts follow release-mode Rust: `i as usize` is `i mod 2^64`, and the
additions wrap modulo `2^64`.
-/

/-- `std::io::SeekFrom`. -/
inductive SeekFrom where
  | start (n : Nat)
  | fromEnd (i : Int)
  | current (i : Int)
deriving DecidableEq, Repr

/-- The shared `seek` of `CacheReader` and `LoadingReader`: returns the
new position and `Ok(new position)`, or leaves the position unchanged and
returns `Err(EINVAL)`.  `(-i).toNat` is the value of `-i as usize` for any
valid `i64` `i < 0` (including `i64::MIN`, whose wrapping negation also
casts to `2^63`). -/
def seek (size : Nat) (pos : Nat) : SeekFrom → Nat × Except Unit Nat
  | .start n => (n % U64, .ok (n % U64))
  | .fromEnd i =>
    if i < 0 ∧ size < (-i).toNat then (pos, .error ())
    else ((size + (i % (U64 : Int)).toNat) % U64, .ok ((size + (i % (U64 : Int)).toNat) % U64))
  | .current i =>
    if i < 0 ∧ pos < (-i).toNat then (pos, .error ())
    else ((pos + (i % (U64 : Int)).toNat) % U64, .ok ((pos + (i % (U64 : Int)).toNat) % U64))

/-!
`Cache::make_reader` (`reader.rs`).  The cache is the tri-state machine
Empty / Loading / Loaded.  For the state machine the loading state is
summarized by its `is_eof()` flag and `cached_size`; a `Loaded` weak
reference is summarized by whether `upgrade()` succeeds (`alive`).  The
ghost field `openCount` counts calls of the backing `File::open`.
`File::getattr` and `File::open` are modelled as succeeding; allocation
success is the parameter `allocOk` (for a member smaller than the memory
budget the page manager can always satisfy the request).
-/

/-- `enum CacheState { Empty, Loading(..), Loaded(..) }`. -/
inductive CacheState where
  | empty
  | loading (eof : Bool) (cached : Nat)
  | loaded (alive : Bool) (cached : Nat)
deriving DecidableEq, Repr

/-- The reader kind `make_reader` hands out. -/
inductive ReaderKind where
  | loadingReader
  | cacheReader
deriving DecidableEq, Repr

/-- `struct Cache { page_manager, size, file, state }` with the ghost
open counter. -/
structure Cache where
  size : Option Nat
  state : CacheState
  openCount : Nat
deriving DecidableEq, Repr

/-- `Cache::new`. -/
def Cache.new : Cache := { size := none, state := .empty, openCount := 0 }

/-- `Cache::make_reader` with explicit recursion fuel (the source
self-recurses via `self.make_reader()` at the end of the match).
`none` means the fuel ran out; the source's branches are:
Empty → fetch size, allocate (failure is the `oom` error), open the file,
install Loading, recurse; Loading not at EOF → `LoadingReader`; Loading at
EOF → demote to Loaded, recurse; Loaded alive → `CacheReader`; stale
Loaded → reset to Empty, recurse. -/
def Cache.makeReaderAux (fileSize : Nat) (allocOk : Bool) :
    Nat → Cache → Option (Cache × Except String ReaderKind)
  | 0, _ => none
  | fuel + 1, c =>
    match c.state with
    | .empty =>
      let size := c.size.getD fileSize
      if allocOk then
        Cache.makeReaderAux fileSize allocOk fuel
          { size := some size, state := .loading false 0, openCount := c.openCount + 1 }
      else some ({ c with size := some size }, .error "oom")
    | .loading eof cached =>
      if eof then
        Cache.makeReaderAux fileSize allocOk fuel { c with state := .loaded true cached }
      else some (c, .ok .loadingReader)
    | .loaded alive _ =>
      if alive then some (c, .ok .cacheReader)
      else Cache.makeReaderAux fileSize allocOk fuel { c with state := .empty }

/-- `Cache::make_reader`: recursion depth 3 suffices (proved below). -/
def Cache.make_reader (fileSize : Nat) (allocOk : Bool) (c : Cache) :
    Option (Cache × Except String ReaderKind) :=
  Cache.makeReaderAux fileSize allocOk 3 c

/-- Reading a `LoadingReader` to end-of-stream: drives the shared loading
state until the decoder reports EOF, caching the whole member (ghost
summary of repeated `LoadingReader::read` calls).  Other states are
untouched. -/
def Cache.finishLoading (c : Cache) : Cache :=
  match c.state with
  | .loading _ _ => { c with state := .loading true (c.size.getD 0) }
  | _ => c

/-!
`to_fuse_file_type` (`archive/mod.rs`) and the open-flags check of
`ShowFS::open` (`fs.rs`).
-/

/-- `fuse::FileType`. -/
inductive FileType where
  | namedPipe
  | charDevice
  | blockDevice
  | directory
  | regularFile
  | symlink
  | socket
deriving DecidableEq, Repr

/-- Linux `libc` file-type mode bits. -/
def S_IFMT : Nat := 0o170000
def S_IFSOCK : Nat := 0o140000
def S_IFLNK : Nat := 0o120000
def S_IFREG : Nat := 0o100000
def S_IFBLK : Nat := 0o060000
def S_IFDIR : Nat := 0o040000
def S_IFCHR : Nat := 0o020000
def S_IFIFO : Nat := 0o010000

/-- `to_fuse_file_type(file_type)`: match on `file_type & S_IFMT`;
there is no `S_IFSOCK` arm, the wildcard maps to `RegularFile`. -/
def to_fuse_file_type (mode : Nat) : FileType :=
  let t := mode &&& S_IFMT
  if t = S_IFLNK then .symlink
  else if t = S_IFREG then .regularFile
  else if t = S_IFBLK then .blockDevice
  else if t = S_IFDIR then .directory
  else if t = S_IFCHR then .charDevice
  else if t = S_IFIFO then .namedPipe
  else .regularFile

/-- Linux `libc::O_RDONLY`. -/
def O_RDONLY : Nat := 0
/-- Linux `libc::O_WRONLY`. -/
def O_WRONLY : Nat := 1
/-- Linux `libc::O_RDWR`. -/
def O_RDWR : Nat := 2

/-- The flag test of `ShowFS::open` (`fs.rs`): `flags & O_RDONLY != 0`
replies `EINVAL`; otherwise the open proceeds. -/
def open_flags_rejected (flags : Nat) : Bool := flags &&& O_RDONLY ≠ 0

/-- The check the specification intends: reject any access mode other
than read-only, i.e. `(flags & O_ACCMODE) != O_RDONLY` with
`O_ACCMODE = 3`. -/
def open_flags_rejected_intended (flags : Nat) : Bool := flags &&& 3 ≠ O_RDONLY

/-!  ## Theorems  -/

/-- Unfolding of the first component of `calc_page_count`. -/
theorem calc_page_count_fst (bytes : Nat) :
    (AllocatedPage.calc_page_count bytes).1 =
      if bytes ≤ AllocatedPage.embed_size then 0
      else (bytes + PAGE_SIZE - 1) % U64 / PAGE_SIZE := rfl

/-- Unfolding of the second component of `calc_page_count`. -/
theorem calc_page_count_snd (bytes : Nat) :
    (AllocatedPage.calc_page_count bytes).2 =
      if (AllocatedPage.calc_page_count bytes).1 ≤ AllocatedPage.embed_map_len then 0
      else ((AllocatedPage.calc_page_count bytes).1 + PAGE_MAP_LEN - 1) % U64 / PAGE_MAP_LEN :=
  rfl

/-- Unfolding of `allocate_consumed` through a computed `calc_page_count`. -/
theorem allocate_consumed_eq (bytes d m : Nat)
    (h : AllocatedPage.calc_page_count bytes = (d, m)) :
    AllocatedPage.allocate_consumed bytes =
      1 + (if 0 < m then m else d) + AllocatedPage.second_level_consumed d m := by
  unfold AllocatedPage.allocate_consumed
  simp [h]

/-- The per-index slice length is the full `PAGE_MAP_LEN` except at the
last relative-map page. -/
theorem rel_map_len_of_lt (data r i : Nat) (hi : i < r) :
    AllocatedPage.rel_map_len (r + 1) data i = PAGE_MAP_LEN := by
  unfold AllocatedPage.rel_map_len
  rw [if_neg]
  rintro ⟨h, -⟩
  omega

/-- Closed form for the second-level page consumption. -/
theorem second_level_consumed_closed (data r : Nat) :
    AllocatedPage.second_level_consumed data (r + 1) =
      r * PAGE_MAP_LEN +
        (if 0 < data % PAGE_MAP_LEN then data % PAGE_MAP_LEN else PAGE_MAP_LEN) := by
  unfold AllocatedPage.second_level_consumed
  rw [Finset.sum_range_succ]
  have h1 : ∑ i ∈ Finset.range r, AllocatedPage.rel_map_len (r + 1) data i =
      ∑ _i ∈ Finset.range r, PAGE_MAP_LEN := by
    refine Finset.sum_congr rfl fun i hi => ?_
    exact rel_map_len_of_lt data r i (Finset.mem_range.mp hi)
  rw [h1, Finset.sum_const, Finset.card_range, smul_eq_mul]
  congr 1
  unfold AllocatedPage.rel_map_len
  by_cases h : 0 < data % PAGE_MAP_LEN
  · rw [if_pos ⟨rfl, h⟩, if_pos h]
  · rw [if_neg (fun hc => h hc.2), if_neg h]

/-- C4 counterexample: at the declared size `2^64 - 1` — a reachable
`usize`, since member sizes arrive as archive-declared `u64` values — the
rounding sum `bytes + 4095` overflows: a release build wraps it, so
`calc_page_count` yields zero data pages although the bytes exceed the
embedded payload, `data_pages` is not the ceiling of `bytes / 4096`, and
the allocation consumes one page instead of `1 + indir + data`. -/
theorem allocatedPage_sizing_overflow_counterexample :
    AllocatedPage.embed_size < 2 ^ 64 - 1 ∧
    (AllocatedPage.calc_page_count (2 ^ 64 - 1)).1 = 0 ∧
    (AllocatedPage.calc_page_count (2 ^ 64 - 1)).1 ≠
      (2 ^ 64 - 1 + (PAGE_SIZE - 1)) / PAGE_SIZE ∧
    ¬(2 ^ 64 - 1 ≤ (AllocatedPage.calc_page_count (2 ^ 64 - 1)).1 * PAGE_SIZE) ∧
    AllocatedPage.allocate_consumed (2 ^ 64 - 1) = 1 := by
  refine ⟨by decide, by decide, by decide, by decide, by decide⟩

/-- C4 (amended): whenever the `usize` rounding sum `bytes + 4095` does
not overflow — every byte count below `2^64 - 4095` — `data_pages` is
zero exactly when the bytes fit the header's embedded payload and is
otherwise the ceiling of `bytes / 4096`; the relative-map page count is
zero exactly when `data_pages` fits the embedded map and is otherwise the
ceiling of `data_pages / 1024`; and `AllocatedPage::allocate` draws
exactly `1 + rel_map_pages + data_pages` pages from the arena.  Beyond
that bound a release build wraps the sum (see the counterexample above)
and a debug build panics. -/
theorem allocatedPage_sizing_spec (bytes : Nat)
    (hbytes : bytes + PAGE_SIZE - 1 < U64) :
    ((AllocatedPage.calc_page_count bytes).1 = 0 ↔ bytes ≤ AllocatedPage.embed_size) ∧
    (AllocatedPage.embed_size < bytes →
      bytes ≤ (AllocatedPage.calc_page_count bytes).1 * PAGE_SIZE ∧
      PAGE_SIZE * ((AllocatedPage.calc_page_count bytes).1 - 1) < bytes) ∧
    ((AllocatedPage.calc_page_count bytes).2 = 0 ↔
      (AllocatedPage.calc_page_count bytes).1 ≤ AllocatedPage.embed_map_len) ∧
    (AllocatedPage.embed_map_len < (AllocatedPage.calc_page_count bytes).1 →
      (AllocatedPage.calc_page_count bytes).1 ≤
        (AllocatedPage.calc_page_count bytes).2 * PAGE_MAP_LEN ∧
      PAGE_MAP_LEN * ((AllocatedPage.calc_page_count bytes).2 - 1) <
        (AllocatedPage.calc_page_count bytes).1) ∧
    AllocatedPage.allocate_consumed bytes =
      1 + (AllocatedPage.calc_page_count bytes).2 + (AllocatedPage.calc_page_count bytes).1 := by
  have hps : PAGE_SIZE = 4096 := rfl
  have hpm : PAGE_MAP_LEN = 1024 := rfl
  have hes : AllocatedPage.embed_size = 4048 := rfl
  have heml : AllocatedPage.embed_map_len = 1012 := rfl
  by_cases hembed : bytes ≤ AllocatedPage.embed_size
  · -- embed layout: no data pages, no map pages, one header page
    have hd : (AllocatedPage.calc_page_count bytes).1 = 0 := by
      rw [calc_page_count_fst, if_pos hembed]
    have hm : (AllocatedPage.calc_page_count bytes).2 = 0 := by
      rw [calc_page_count_snd, if_pos (by rw [hd, heml]; omega)]
    refine ⟨by simp [hd, hembed], fun h => absurd hembed (by omega), by simp [hd, hm, heml], ?_, ?_⟩
    · intro h
      rw [hd, heml] at h
      omega
    · rw [allocate_consumed_eq bytes 0 0 (Prod.ext hd hm), hd, hm]
      simp [AllocatedPage.second_level_consumed]
  · push_neg at hembed
    have hnw : (bytes + PAGE_SIZE - 1) % U64 = bytes + PAGE_SIZE - 1 :=
      Nat.mod_eq_of_lt hbytes
    have hd : (AllocatedPage.calc_page_count bytes).1 = (bytes + PAGE_SIZE - 1) / PAGE_SIZE := by
      rw [calc_page_count_fst, if_neg (by omega), hnw]
    have hdiv := Nat.div_add_mod (bytes + PAGE_SIZE - 1) PAGE_SIZE
    have hmodlt : (bytes + PAGE_SIZE - 1) % PAGE_SIZE < PAGE_SIZE :=
      Nat.mod_lt _ (by rw [hps]; omega)
    have hdceil : bytes ≤ (AllocatedPage.calc_page_count bytes).1 * PAGE_SIZE ∧
        PAGE_SIZE * ((AllocatedPage.calc_page_count bytes).1 - 1) < bytes ∧
        (AllocatedPage.calc_page_count bytes).1 ≠ 0 := by
      rw [hd]
      rw [hps] at hdiv hmodlt ⊢
      rw [hes] at hembed
      omega
    have hfst : ((AllocatedPage.calc_page_count bytes).1 = 0 ↔ bytes ≤ AllocatedPage.embed_size) :=
      ⟨fun h0 => absurd h0 hdceil.2.2, fun hle => absurd hle (by omega)⟩
    by_cases hdirect : (AllocatedPage.calc_page_count bytes).1 ≤ AllocatedPage.embed_map_len
    · -- direct layout: no relative-map pages
      have hm : (AllocatedPage.calc_page_count bytes).2 = 0 := by
        rw [calc_page_count_snd, if_pos hdirect]
      refine ⟨hfst, fun _ => ⟨hdceil.1, hdceil.2.1⟩, by simp [hm, hdirect], ?_, ?_⟩
      · intro h
        exact absurd hdirect (by omega)
      · rw [allocate_consumed_eq bytes (AllocatedPage.calc_page_count bytes).1 0
          (Prod.ext rfl hm), hm]
        simp [AllocatedPage.second_level_consumed]
    · -- relative layout: rel-map pages are the ceiling of data_pages / 1024
      push_neg at hdirect
      have hnw2 : ((AllocatedPage.calc_page_count bytes).1 + PAGE_MAP_LEN - 1) % U64 =
          (AllocatedPage.calc_page_count bytes).1 + PAGE_MAP_LEN - 1 := by
        apply Nat.mod_eq_of_lt
        rw [hd]
        simp only [U64, PAGE_SIZE, PAGE_MAP_LEN] at hbytes ⊢
        omega
      have hm : (AllocatedPage.calc_page_count bytes).2 =
          ((AllocatedPage.calc_page_count bytes).1 + PAGE_MAP_LEN - 1) / PAGE_MAP_LEN := by
        rw [calc_page_count_snd, if_neg (by omega), hnw2]
      have hmdiv := Nat.div_add_mod ((AllocatedPage.calc_page_count bytes).1 + PAGE_MAP_LEN - 1)
        PAGE_MAP_LEN
      have hmmodlt : ((AllocatedPage.calc_page_count bytes).1 + PAGE_MAP_LEN - 1) % PAGE_MAP_LEN <
          PAGE_MAP_LEN := Nat.mod_lt _ (by rw [hpm]; omega)
      have hmceil : (AllocatedPage.calc_page_count bytes).1 ≤
          (AllocatedPage.calc_page_count bytes).2 * PAGE_MAP_LEN ∧
          PAGE_MAP_LEN * ((AllocatedPage.calc_page_count bytes).2 - 1) <
            (AllocatedPage.calc_page_count bytes).1 ∧
          (AllocatedPage.calc_page_count bytes).2 ≠ 0 := by
        rw [hm]
        rw [hpm] at hmdiv hmmodlt ⊢
        rw [heml] at hdirect
        omega
      refine ⟨hfst, fun _ => ⟨hdceil.1, hdceil.2.1⟩,
        ⟨fun h0 => absurd h0 hmceil.2.2, fun hle => absurd hle (by omega)⟩,
        fun _ => ⟨hmceil.1, hmceil.2.1⟩, ?_⟩
      obtain ⟨m0, hm0⟩ : ∃ m0, (AllocatedPage.calc_page_count bytes).2 = m0 + 1 :=
        ⟨(AllocatedPage.calc_page_count bytes).2 - 1, by have := hmceil.2.2; omega⟩
      rw [allocate_consumed_eq bytes (AllocatedPage.calc_page_count bytes).1
        (AllocatedPage.calc_page_count bytes).2 (Prod.ext rfl rfl), hm0,
        second_level_consumed_closed, if_pos (by omega)]
      have hdm := Nat.div_add_mod (AllocatedPage.calc_page_count bytes).1 PAGE_MAP_LEN
      have hdmlt : (AllocatedPage.calc_page_count bytes).1 % PAGE_MAP_LEN < PAGE_MAP_LEN :=
        Nat.mod_lt _ (by rw [hpm]; omega)
      have hmeq : ((AllocatedPage.calc_page_count bytes).1 + PAGE_MAP_LEN - 1) / PAGE_MAP_LEN =
          m0 + 1 := by rw [← hm, hm0]
      by_cases hz : 0 < (AllocatedPage.calc_page_count bytes).1 % PAGE_MAP_LEN
      · rw [if_pos hz]
        simp only [hps, hpm, hes, heml] at hmdiv hmmodlt hdm hdmlt hmeq hz hdirect ⊢
        omega
      · rw [if_neg hz]
        simp only [hps, hpm, hes, heml] at hmdiv hmmodlt hdm hdmlt hmeq hz hdirect ⊢
        omega

/-- Witness for the sizing specification at concrete inputs in the direct
and relative regimes. -/
theorem allocatedPage_sizing_spec_witness :
    (5000000 ≤ (AllocatedPage.calc_page_count 5000000).1 * PAGE_SIZE ∧
      PAGE_SIZE * ((AllocatedPage.calc_page_count 5000000).1 - 1) < 5000000) ∧
    ((AllocatedPage.calc_page_count 5000000).1 ≤
        (AllocatedPage.calc_page_count 5000000).2 * PAGE_MAP_LEN ∧
      PAGE_MAP_LEN * ((AllocatedPage.calc_page_count 5000000).2 - 1) <
        (AllocatedPage.calc_page_count 5000000).1) :=
  ⟨(allocatedPage_sizing_spec 5000000 (by decide)).2.1 (by decide),
   (allocatedPage_sizing_spec 5000000 (by decide)).2.2.2.1 (by decide)⟩

/-- C5: `PageAllocator::free(p)` extends the front run in place by one
page (same number of run nodes, page set grown by exactly `p`) when `p` is
one page before the front run's top; in every other case — no front run,
or `p` not adjacent — a fresh single-page run is pushed at the front. -/
theorem pageAllocator_free_coalesce_spec (s : PageAllocator) (p : Nat) :
    (∀ front rest, s.free_list = front :: rest → p + 1 = front.top →
      (s.free p).free_list = { top := p, count := front.count + 1 } :: rest ∧
      (s.free p).free_list.length = s.free_list.length ∧
      Run.pages { top := p, count := front.count + 1 } = insert p front.pages) ∧
    ((∀ front, s.free_list.head? = some front → p + 1 ≠ front.top) →
      (s.free p).free_list = { top := p, count := 1 } :: s.free_list) := by
  constructor
  · rintro front rest hfl hadj
    refine ⟨?_, ?_, ?_⟩
    · simp [PageAllocator.free, hfl, hadj]
    · simp [PageAllocator.free, hfl, hadj]
    · ext x
      simp only [Run.pages, Finset.mem_Ico, Finset.mem_insert]
      omega
  · intro hna
    cases hfl : s.free_list with
    | nil => simp [PageAllocator.free, hfl]
    | cons front rest =>
      have hne : p + 1 ≠ front.top := hna front (by rw [hfl]; rfl)
      simp [PageAllocator.free, hfl, hne]

/-- Witness for the coalescing specification: an adjacent free extends the
front run, a non-adjacent free pushes a fresh single-page run. -/
theorem pageAllocator_free_coalesce_spec_witness :
    (PageAllocator.free { free_list := [{ top := 5, count := 3 }], free_count := 3 } 4).free_list =
      [{ top := 4, count := 4 }] ∧
    (PageAllocator.free { free_list := [{ top := 5, count := 3 }], free_count := 3 } 2).free_list =
      [{ top := 2, count := 1 }, { top := 5, count := 3 }] :=
  ⟨((pageAllocator_free_coalesce_spec { free_list := [{ top := 5, count := 3 }], free_count := 3 }
      4).1 { top := 5, count := 3 } [] rfl rfl).1,
   (pageAllocator_free_coalesce_spec { free_list := [{ top := 5, count := 3 }], free_count := 3 }
      2).2 (by intro front h; simp only [List.head?] at h; injection h with h2; rw [← h2]; decide)⟩

/-- `free` always increments `free_count` by exactly one. -/
theorem pageAllocator_free_count (s : PageAllocator) (p : Nat) :
    (s.free p).free_count = s.free_count + 1 := by
  unfold PageAllocator.free
  cases s.free_list with
  | nil => rfl
  | cons front rest =>
    by_cases h : p + 1 = front.top <;> simp [h]

/-- `free` preserves the bookkeeping invariant. -/
theorem pageAllocator_inv_free (s : PageAllocator) (p : Nat) (h : s.Inv) : (s.free p).Inv := by
  obtain ⟨h1, h2⟩ := h
  unfold PageAllocator.free PageAllocator.Inv
  cases hfl : s.free_list with
  | nil =>
    rw [hfl] at h1
    simp [sumRuns] at h1 ⊢
    exact h1
  | cons front rest =>
    rw [hfl] at h1
    by_cases hadj : p + 1 = front.top
    · simp only [hadj, if_pos rfl]
      constructor
      · simp [sumRuns] at h1 ⊢
        omega
      · intro r hr
        simp at hr
        rcases hr with hr | hr
        · rw [hr]
          simp
        · exact h2 r (by rw [hfl]; exact List.mem_cons_of_mem _ hr)
    · simp only [if_neg hadj]
      constructor
      · simp [sumRuns] at h1 ⊢
        omega
      · intro r hr
        simp at hr
        rcases hr with hr | hr | hr
        · rw [hr]; simp
        · rw [hr]; exact h2 front (by rw [hfl]; exact List.mem_cons_self _ _)
        · exact h2 r (by rw [hfl]; exact List.mem_cons_of_mem _ hr)

/-- `allocate` succeeds exactly when a free page remains, and preserves
the invariant while decrementing `free_count` by one. -/
theorem pageAllocator_inv_alloc (s : PageAllocator) (p : Nat) (t : PageAllocator)
    (h : s.Inv) (ha : s.allocate = some (p, t)) :
    t.Inv ∧ t.free_count = s.free_count - 1 := by
  obtain ⟨h1, h2⟩ := h
  unfold PageAllocator.allocate at ha
  by_cases hz : s.free_count = 0
  · rw [if_pos hz] at ha
    exact absurd ha (by simp)
  · rw [if_neg hz] at ha
    cases hfl : s.free_list with
    | nil =>
      rw [hfl] at ha
      exact absurd ha (by simp)
    | cons front rest =>
      rw [hfl] at ha
      rw [hfl] at h1
      dsimp only at ha
      have hfront : 0 < front.count := h2 front (by rw [hfl]; exact List.mem_cons_self _ _)
      by_cases hone : front.count - 1 = 0
      · rw [if_pos hone] at ha
        simp only [Option.some.injEq, Prod.mk.injEq] at ha
        obtain ⟨-, ht⟩ := ha
        rw [← ht]
        refine ⟨⟨?_, ?_⟩, ?_⟩
        · simp [sumRuns] at h1 ⊢
          omega
        · intro r hr
          exact h2 r (by rw [hfl]; exact List.mem_cons_of_mem _ hr)
        · rfl
      · rw [if_neg hone] at ha
        simp only [Option.some.injEq, Prod.mk.injEq] at ha
        obtain ⟨-, ht⟩ := ha
        rw [← ht]
        refine ⟨⟨?_, ?_⟩, ?_⟩
        · simp [sumRuns] at h1 ⊢
          omega
        · intro r hr
          simp at hr
          rcases hr with hr | hr
          · rw [hr]
            simp
            omega
          · exact h2 r (by rw [hfl]; exact List.mem_cons_of_mem _ hr)
        · rfl

/-- Under the invariant, `allocate` returns `Some` iff a free page remains. -/
theorem pageAllocator_alloc_isSome (s : PageAllocator) (h : s.Inv) :
    s.allocate.isSome ↔ 0 < s.free_count := by
  obtain ⟨h1, h2⟩ := h
  unfold PageAllocator.allocate
  by_cases hz : s.free_count = 0
  · simp [hz]
  · cases hfl : s.free_list with
    | nil =>
      rw [hfl] at h1
      simp [sumRuns] at h1
      exact absurd h1 hz
    | cons front rest =>
      by_cases hone : front.count - 1 = 0 <;> simp [hz, hone] <;> omega

/-- C9: in every state reachable from the initial single run of
`max_pages`, `free_count` equals the total page count of the free-list
runs; `allocate` succeeds exactly when `free_count > 0` and decrements it
by exactly one; `free` increments it by exactly one. -/
theorem pageAllocator_free_count_invariant (n : Nat) (s : PageAllocator)
    (hn : 0 < n) (hs : PageAllocator.Reach n s) :
    s.free_count = sumRuns s.free_list ∧
    (s.allocate.isSome ↔ 0 < s.free_count) ∧
    (∀ p t, s.allocate = some (p, t) → t.free_count = s.free_count - 1) ∧
    (∀ p, (s.free p).free_count = s.free_count + 1) := by
  have hinv : s.Inv := by
    induction hs with
    | init =>
      refine ⟨by simp [PageAllocator.init, sumRuns], fun r hr => ?_⟩
      simp [PageAllocator.init] at hr
      rw [hr]
      exact hn
    | step_alloc h ha ih => exact (pageAllocator_inv_alloc _ _ _ ih ha).1
    | step_free p h ih => exact pageAllocator_inv_free _ p ih
  exact ⟨hinv.1, pageAllocator_alloc_isSome s hinv,
    fun p t ha => (pageAllocator_inv_alloc s p t hinv ha).2,
    fun p => pageAllocator_free_count s p⟩

/-- Witness: the reachability theorem applied to the initial 4-page arena. -/
theorem pageAllocator_free_count_invariant_witness :
    (PageAllocator.init 4).free_count = sumRuns (PageAllocator.init 4).free_list :=
  (pageAllocator_free_count_invariant 4 (PageAllocator.init 4) (by decide)
    PageAllocator.Reach.init).1

/-- The eviction walk succeeds exactly when the unused headers on the walk
hold at least the shortfall. -/
theorem free_old_pages_ok_iff (l : List Header) : ∀ lwm, 0 < lwm →
    ((free_old_pages lwm l).2.2 = true ↔ lwm ≤ sumUnused l) := by
  induction l with
  | nil =>
    intro lwm hl
    simp [free_old_pages, sumUnused]
    omega
  | cons h rest ih =>
    intro lwm hl
    by_cases hu : 0 < h.use_count
    · have hne : ¬h.use_count = 0 := by omega
      rw [show (free_old_pages lwm (h :: rest)).2.2 = (free_old_pages lwm rest).2.2 from by
        simp [free_old_pages, hu]]
      rw [show sumUnused (h :: rest) = sumUnused rest from by
        simp [sumUnused, List.filter_cons, hne]]
      exact ih lwm hl
    · have heq : h.use_count = 0 := by omega
      have hsum : sumUnused (h :: rest) = h.pages + sumUnused rest := by
        simp [sumUnused, List.filter_cons, heq]
      by_cases hle : lwm ≤ h.pages
      · rw [show (free_old_pages lwm (h :: rest)).2.2 = true from by
          simp [free_old_pages, hu, hle], hsum]
        simp
        omega
      · rw [show (free_old_pages lwm (h :: rest)).2.2 =
            (free_old_pages (lwm - h.pages) rest).2.2 from by
          simp [free_old_pages, hu, hle], hsum, ih (lwm - h.pages) (by omega)]
        omega

/-- A failed eviction walk has deallocated every unused header: only the
used ones survive. -/
theorem free_old_pages_fail_survivors (l : List Header) : ∀ lwm,
    (free_old_pages lwm l).2.2 = false →
    (free_old_pages lwm l).1 = l.filter fun h => 0 < h.use_count := by
  induction l with
  | nil => intro lwm _; simp [free_old_pages]
  | cons h rest ih =>
    intro lwm hfail
    by_cases hu : 0 < h.use_count
    · simp only [free_old_pages, if_pos hu] at hfail ⊢
      rw [List.filter_cons_of_pos (by simp [hu])]
      rw [ih lwm hfail]
    · by_cases hle : lwm ≤ h.pages
      · simp [free_old_pages, if_neg hu, if_pos hle] at hfail
      · simp only [free_old_pages, if_neg hu, if_neg hle] at hfail ⊢
        rw [List.filter_cons_of_neg (by simp; omega)]
        exact ih (lwm - h.pages) hfail

/-- The walked list splits, as a permutation, into the survivors and the
victims of the eviction walk. -/
theorem free_old_pages_perm (l : List Header) : ∀ lwm,
    List.Perm l ((free_old_pages lwm l).1 ++ evictionVictims lwm l) := by
  induction l with
  | nil => intro lwm; simp [free_old_pages, evictionVictims]
  | cons h rest ih =>
    intro lwm
    by_cases hu : 0 < h.use_count
    · simp only [free_old_pages, evictionVictims, if_pos hu, List.cons_append]
      exact (ih lwm).cons h
    · by_cases hle : lwm ≤ h.pages
      · simp only [free_old_pages, evictionVictims, if_neg hu, if_pos hle]
        exact (List.perm_append_singleton h rest).symm
      · simp only [free_old_pages, evictionVictims, if_neg hu, if_neg hle]
        exact ((ih (lwm - h.pages)).cons h).trans List.perm_middle.symm

/-- The pages freed by the walk are exactly the pages of its victims. -/
theorem free_old_pages_freed (l : List Header) : ∀ lwm,
    (free_old_pages lwm l).2.1 = ((evictionVictims lwm l).map Header.pages).sum := by
  induction l with
  | nil => intro lwm; simp [free_old_pages, evictionVictims]
  | cons h rest ih =>
    intro lwm
    by_cases hu : 0 < h.use_count
    · simp only [free_old_pages, evictionVictims, if_pos hu]
      exact ih lwm
    · by_cases hle : lwm ≤ h.pages
      · simp [free_old_pages, evictionVictims, if_neg hu, if_pos hle]
      · simp only [free_old_pages, evictionVictims, if_neg hu, if_neg hle, List.map_cons,
          List.sum_cons]
        rw [ih (lwm - h.pages)]
        omega

/-- Every victim of the walk is unused. -/
theorem evictionVictims_unused (l : List Header) : ∀ lwm, ∀ v ∈ evictionVictims lwm l,
    v.use_count = 0 := by
  induction l with
  | nil => intro lwm v hv; simp [evictionVictims] at hv
  | cons h rest ih =>
    intro lwm v hv
    by_cases hu : 0 < h.use_count
    · rw [evictionVictims, if_pos hu] at hv
      exact ih lwm v hv
    · by_cases hle : lwm ≤ h.pages
      · rw [evictionVictims, if_neg hu, if_pos hle] at hv
        simp at hv
        rw [hv]
        omega
      · rw [evictionVictims, if_neg hu, if_neg hle] at hv
        rcases List.mem_cons.mp hv with hv | hv
        · rw [hv]; omega
        · exact ih (lwm - h.pages) v hv

/-- When the walk succeeds, the victims cover the shortfall and — the walk
stops as soon as possible — the victims minus the last one do not. -/
theorem evictionVictims_minimal (l : List Header) : ∀ lwm, 0 < lwm →
    (free_old_pages lwm l).2.2 = true →
    lwm ≤ ((evictionVictims lwm l).map Header.pages).sum ∧
    (((evictionVictims lwm l).dropLast).map Header.pages).sum < lwm := by
  induction l with
  | nil => intro lwm hl hok; simp [free_old_pages] at hok
  | cons h rest ih =>
    intro lwm hl hok
    by_cases hu : 0 < h.use_count
    · rw [free_old_pages, if_pos hu] at hok
      rw [evictionVictims, if_pos hu]
      exact ih lwm hl hok
    · by_cases hle : lwm ≤ h.pages
      · rw [evictionVictims, if_neg hu, if_pos hle]
        simp
        exact ⟨hle, hl⟩
      · rw [free_old_pages, if_neg hu, if_neg hle] at hok
        rw [evictionVictims, if_neg hu, if_neg hle]
        have hrec := ih (lwm - h.pages) (by omega) hok
        have hne : evictionVictims (lwm - h.pages) rest ≠ [] := by
          intro hnil
          rw [hnil] at hrec
          simp at hrec
          omega
        obtain ⟨b, t, hbt⟩ : ∃ b t, evictionVictims (lwm - h.pages) rest = b :: t := by
          cases hv : evictionVictims (lwm - h.pages) rest with
          | nil => exact absurd hv hne
          | cons b t => exact ⟨b, t, rfl⟩
        rw [hbt] at hrec ⊢
        constructor
        · simp only [List.map_cons, List.sum_cons] at hrec ⊢
          omega
        · rw [show (h :: b :: t).dropLast = h :: (b :: t).dropLast from rfl]
          simp only [List.map_cons, List.sum_cons] at hrec ⊢
          omega

/-- C1: when `PageManager::allocate(bytes)` finds fewer free pages than it
needs, the eviction walk over the LRU tail→head deallocates only headers
with `use_count == 0` (the used ones all survive), frees exactly its
victims' pages, stops as soon as the freed total meets the shortfall (all
victims but the last sum below it), and `allocate` returns `None` exactly
when even the total pages of all unused headers fall short — in which case
every unused header has been deallocated. -/
theorem pageManager_allocate_eviction_spec (pm : PageManager) (bytes : Nat)
    (hshort : pm.free_count < AllocatedPage.need_pages bytes) :
    (∀ v ∈ evictionVictims (AllocatedPage.need_pages bytes - pm.free_count) pm.lru.reverse,
      v.use_count = 0) ∧
    List.Perm pm.lru.reverse
      ((free_old_pages (AllocatedPage.need_pages bytes - pm.free_count) pm.lru.reverse).1 ++
        evictionVictims (AllocatedPage.need_pages bytes - pm.free_count) pm.lru.reverse) ∧
    (free_old_pages (AllocatedPage.need_pages bytes - pm.free_count) pm.lru.reverse).2.1 =
      ((evictionVictims (AllocatedPage.need_pages bytes - pm.free_count) pm.lru.reverse).map
        Header.pages).sum ∧
    ((free_old_pages (AllocatedPage.need_pages bytes - pm.free_count) pm.lru.reverse).2.2 = true →
      AllocatedPage.need_pages bytes - pm.free_count ≤
        ((evictionVictims (AllocatedPage.need_pages bytes - pm.free_count)
          pm.lru.reverse).map Header.pages).sum ∧
      (((evictionVictims (AllocatedPage.need_pages bytes - pm.free_count)
          pm.lru.reverse).dropLast).map Header.pages).sum <
        AllocatedPage.need_pages bytes - pm.free_count) ∧
    (pm.allocate bytes = none ↔
      sumUnused pm.lru.reverse < AllocatedPage.need_pages bytes - pm.free_count) ∧
    (pm.allocate bytes = none →
      (free_old_pages (AllocatedPage.need_pages bytes - pm.free_count) pm.lru.reverse).1 =
        pm.lru.reverse.filter fun h => 0 < h.use_count) := by
  have hlwm : 0 < AllocatedPage.need_pages bytes - pm.free_count := by omega
  have hnone : pm.allocate bytes = none ↔
      (free_old_pages (AllocatedPage.need_pages bytes - pm.free_count) pm.lru.reverse).2.2 =
        false := by
    unfold PageManager.allocate
    rw [if_neg (by omega)]
    by_cases hok : (free_old_pages (AllocatedPage.need_pages bytes - pm.free_count)
        pm.lru.reverse).2.2 = true
    · simp [hok]
    · simp only [Bool.not_eq_true] at hok
      simp [hok]
  refine ⟨evictionVictims_unused _ _, free_old_pages_perm _ _, free_old_pages_freed _ _,
    evictionVictims_minimal _ _ hlwm, ?_, ?_⟩
  · rw [hnone]
    have hiff := free_old_pages_ok_iff pm.lru.reverse
      (AllocatedPage.need_pages bytes - pm.free_count) hlwm
    constructor
    · intro hfail
      by_contra hge
      have := hiff.mpr (by omega)
      rw [this] at hfail
      exact absurd hfail (by simp)
    · intro hlt
      cases hok : (free_old_pages (AllocatedPage.need_pages bytes - pm.free_count)
          pm.lru.reverse).2.2 with
      | false => rfl
      | true => exact absurd (hiff.mp hok) (by omega)
  · intro hn
    exact free_old_pages_fail_survivors pm.lru.reverse _ (hnone.mp hn)

/-- Witness: a two-header LRU under shortfall; the walk stops at its first
unused victim. -/
theorem pageManager_allocate_eviction_spec_witness :
    2 ≤ ((evictionVictims 2 (PageManager.lru
        { free_count := 1, lru := [{ pages := 2, use_count := 0 }, { pages := 3, use_count := 1 }] }).reverse).map
          Header.pages).sum ∧
    (((evictionVictims 2 (PageManager.lru
        { free_count := 1, lru := [{ pages := 2, use_count := 0 }, { pages := 3, use_count := 1 }] }).reverse).dropLast).map
          Header.pages).sum < 2 :=
  (pageManager_allocate_eviction_spec
    { free_count := 1, lru := [{ pages := 2, use_count := 0 }, { pages := 3, use_count := 1 }] }
    8192 (by decide)).2.2.2.1 (by decide)

/-- Filling one slice never shrinks the byte count, and bytes written into
the slice are exactly the bytes consumed from the stream. -/
theorem fillSlice_conserve (sliceLen : Nat) : ∀ chunks n rem,
    n ≤ (fillSlice sliceLen n rem chunks).1 ∧
    (fillSlice sliceLen n rem chunks).1 + (fillSlice sliceLen n rem chunks).2.1 = n + rem := by
  intro chunks
  induction chunks with
  | nil =>
    intro n rem
    rw [fillSlice]
    by_cases hsl : sliceLen ≤ n <;> simp [hsl]
  | cons c rest ih =>
    intro n rem
    rw [fillSlice]
    by_cases hsl : sliceLen ≤ n
    · simp [hsl]
    · rw [if_neg hsl]
      by_cases hnn : min (min c (sliceLen - n)) rem = 0
      · simp only [hnn, if_pos rfl]
        simp
      · simp only [if_neg hnn]
        have hle : min (min c (sliceLen - n)) rem ≤ rem := Nat.min_le_right _ _
        have := ih (n + min (min c (sliceLen - n)) rem) (rem - min (min c (sliceLen - n)) rem)
        constructor
        · omega
        · omega

/-- The outer read loop: the cached size never shrinks, and the new cached
size plus what the surviving reader can still deliver stays within the
original supply. -/
theorem readLoop_conserve (read_to : Nat) : ∀ slices cached rem chunks,
    cached ≤ (readLoop read_to slices cached rem chunks).1 ∧
    (readLoop read_to slices cached rem chunks).1 +
      (match (readLoop read_to slices cached rem chunks).2 with
        | none => 0
        | some r => r.1) ≤ cached + rem := by
  intro slices
  induction slices with
  | nil =>
    intro cached rem chunks
    rw [readLoop]
    by_cases hle : read_to ≤ cached <;> simp [hle]
  | cons s rest ih =>
    intro cached rem chunks
    rw [readLoop]
    by_cases hle : read_to ≤ cached
    · simp [hle]
    · rw [if_neg hle]
      have hfill := fillSlice_conserve s chunks 0 rem
      by_cases heof : (fillSlice s 0 rem chunks).2.2.2 = true
      · simp only [heof, if_pos rfl]
        simp
        omega
      · simp only [heof, if_neg, Bool.false_eq_true, ite_false]
        have hrec := ih (cached + (fillSlice s 0 rem chunks).1)
          (fillSlice s 0 rem chunks).2.1 (fillSlice s 0 rem chunks).2.2.1
        constructor
        · omega
        · omega

/-- C2: a call to `LoadingState::read_to_at_least` never decreases
`cached_size` (and returns the new value), and — provided the state's
cached bytes plus what the underlying member stream can still deliver fit
the member's declared size, as they do from the initial state on —
`cached_size` never exceeds that size, the bound being itself preserved by
the call. -/
theorem loadingState_cached_size_monotone (st : LoadingState) (slices : List Nat)
    (read_to size : Nat) (hinv : st.cached_size + st.readerRemaining ≤ size) :
    st.cached_size ≤ (st.read_to_at_least slices read_to).2.cached_size ∧
    (st.read_to_at_least slices read_to).1 =
      (st.read_to_at_least slices read_to).2.cached_size ∧
    (st.read_to_at_least slices read_to).2.cached_size +
      (st.read_to_at_least slices read_to).2.readerRemaining ≤ size ∧
    (st.read_to_at_least slices read_to).2.cached_size ≤ size := by
  unfold LoadingState.read_to_at_least
  cases hr : st.reader with
  | none =>
    simp only [LoadingState.readerRemaining, hr] at hinv
    simp [LoadingState.readerRemaining, hr]
    omega
  | some r =>
    obtain ⟨rem, chunks⟩ := r
    simp only [LoadingState.readerRemaining, hr] at hinv
    dsimp only
    by_cases hle : read_to ≤ st.cached_size
    · rw [if_pos hle]
      simp [LoadingState.readerRemaining, hr]
      omega
    · rw [if_neg hle]
      have hloop := readLoop_conserve read_to slices st.cached_size rem chunks
      cases hrl : readLoop read_to slices st.cached_size rem chunks with
      | mk cached2 ropt =>
        rw [hrl] at hloop
        cases ropt with
        | none =>
          simp [LoadingState.readerRemaining]
          simp at hloop
          omega
        | some r2 =>
          simp [LoadingState.readerRemaining]
          simp at hloop
          omega

/-- Witness: reading a ten-byte member through a three-chunk oracle. -/
theorem loadingState_cached_size_monotone_witness :
    ((LoadingState.read_to_at_least
        { reader := some (10, [4, 6, 6]), cached_size := 0 } [4096] 5).2).cached_size ≤ 10 :=
  (loadingState_cached_size_monotone { reader := some (10, [4, 6, 6]), cached_size := 0 }
    [4096] 5 10 (by decide)).2.2.2

/-- Wrapping arithmetic of the `usize` addition in `seek`: within the
machine ranges and with a non-negative mathematical result, the wrapped
sum is exact. -/
theorem seek_wrap_add (a : Nat) (i : Int) (ha : a < 2 ^ 63)
    (hlo : -(2 ^ 63) ≤ i) (hhi : i < 2 ^ 63) (hnn : 0 ≤ (a : Int) + i) :
    (((a + (i % (U64 : Int)).toNat) % U64 : Nat) : Int) = a + i := by
  have hM : ((U64 : Nat) : Int) = (2 : Int) ^ 64 := by norm_num [U64]
  rw [hM]
  rcases le_or_lt 0 i with hi | hi
  · have he : i % ((2 : Int) ^ 64) = i := Int.emod_eq_of_lt hi (by omega)
    rw [he]
    have hlt : a + i.toNat < U64 := by
      simp only [U64]
      omega
    rw [Nat.mod_eq_of_lt hlt]
    push_cast
    omega
  · have he : i % ((2 : Int) ^ 64) = i + 2 ^ 64 := by
      have h0 : (i + 2 ^ 64 * 1) % ((2 : Int) ^ 64) = i % ((2 : Int) ^ 64) :=
        Int.add_mul_emod_self_left i (2 ^ 64) 1
      rw [← h0, Int.emod_eq_of_lt (by omega) (by omega)]
      ring
    rw [he]
    have ht : ((i + 2 ^ 64).toNat : Int) = i + 2 ^ 64 := Int.toNat_of_nonneg (by omega)
    have hge : U64 ≤ a + (i + 2 ^ 64).toNat := by
      simp only [U64]
      omega
    have hsub : (a + (i + 2 ^ 64).toNat) % U64 = (a + (i + 2 ^ 64).toNat - U64) % U64 :=
      Nat.mod_eq_sub_mod hge
    rw [hsub, Nat.mod_eq_of_lt (by simp only [U64]; omega)]
    push_cast
    omega

/-- C6: the shared `seek` of `CacheReader` and `LoadingReader`.
`Start(n)` sets the position to `n`; `End(i)` fails with invalid-argument
exactly when `i < 0` and `size < -i` and otherwise sets the position to
`size + i`; `Current(i)` fails exactly when `i < 0` and `pos < -i` and
otherwise sets the position to `pos + i`; a successful seek returns the
new position and a failing one leaves the position unchanged.  The bounds
keep `size`, `pos` within reachable reader states (a reader's size is at
most the arena's byte count) and `n`, `i` within their machine types. -/
theorem reader_seek_spec (size pos n : Nat) (i : Int)
    (hsize : size < 2 ^ 63) (hpos : pos < 2 ^ 63) (hn : n < U64)
    (hlo : -(2 ^ 63) ≤ i) (hhi : i < 2 ^ 63) :
    seek size pos (.start n) = (n, .ok n) ∧
    (i < 0 ∧ (size : Int) < -i → seek size pos (.fromEnd i) = (pos, .error ())) ∧
    (¬(i < 0 ∧ (size : Int) < -i) →
      ∃ r : Nat, seek size pos (.fromEnd i) = (r, .ok r) ∧ (r : Int) = size + i) ∧
    (i < 0 ∧ (pos : Int) < -i → seek size pos (.current i) = (pos, .error ())) ∧
    (¬(i < 0 ∧ (pos : Int) < -i) →
      ∃ r : Nat, seek size pos (.current i) = (r, .ok r) ∧ (r : Int) = pos + i) := by
  refine ⟨?_, ?_, ?_, ?_, ?_⟩
  · rw [seek, Nat.mod_eq_of_lt hn]
  · rintro ⟨hneg, hbig⟩
    rw [seek, if_pos ⟨hneg, by omega⟩]
  · intro hc
    rw [seek, if_neg (by rintro ⟨h1, h2⟩; exact hc ⟨h1, by omega⟩)]
    exact ⟨_, rfl, seek_wrap_add size i hsize hlo hhi (by omega)⟩
  · rintro ⟨hneg, hbig⟩
    rw [seek, if_pos ⟨hneg, by omega⟩]
  · intro hc
    rw [seek, if_neg (by rintro ⟨h1, h2⟩; exact hc ⟨h1, by omega⟩)]
    exact ⟨_, rfl, seek_wrap_add pos i hpos hlo hhi (by omega)⟩

/-- Witness: a backward `Current` seek within range, resolved at concrete
values. -/
theorem reader_seek_spec_witness :
    ∃ r : Nat, seek 100 50 (.current (-20)) = (r, .ok r) ∧ (r : Int) = 50 + (-20) :=
  (reader_seek_spec 100 50 0 (-20) (by norm_num) (by norm_num) (by norm_num [U64])
    (by norm_num) (by norm_num)).2.2.2.2 (by norm_num)

/-- C3: for a member smaller than the budget (allocation succeeds), open a
reader on a fresh cache, read it to end-of-stream, drop it, and open
again: the backing archive `File::open` runs exactly once in total, and
the second `make_reader` demotes Loading to Loaded and serves a
`CacheReader` from it without opening the archive again. -/
theorem cache_reread_hits_cache (fileSize : Nat) :
    Cache.make_reader fileSize true Cache.new =
      some ({ size := some fileSize, state := .loading false 0, openCount := 1 },
        .ok .loadingReader) ∧
    Cache.make_reader fileSize true
        (Cache.finishLoading
          { size := some fileSize, state := .loading false 0, openCount := 1 }) =
      some ({ size := some fileSize, state := .loaded true fileSize, openCount := 1 },
        .ok .cacheReader) := by
  constructor
  · rfl
  · rfl

/-- C10: `Cache::make_reader` terminates on every cache state: three
levels of self-recursion always suffice to reach a branch that returns
(the worst chain is stale Loaded → Empty → Loading). -/
theorem cache_make_reader_terminates (fileSize : Nat) (allocOk : Bool) (c : Cache) :
    (Cache.make_reader fileSize allocOk c).isSome := by
  obtain ⟨sz, st, oc⟩ := c
  cases st with
  | empty => cases allocOk <;> simp [Cache.make_reader, Cache.makeReaderAux]
  | loading eof cached =>
    cases eof <;> cases allocOk <;> simp [Cache.make_reader, Cache.makeReaderAux]
  | loaded alive cached =>
    cases alive <;> cases allocOk <;> simp [Cache.make_reader, Cache.makeReaderAux]

/-- C8 counterexample: a socket mode (`S_IFSOCK`) is not mapped to the
socket kind — the conversion has no socket arm and falls through to
regular file. -/
theorem to_fuse_file_type_socket_counterexample :
    to_fuse_file_type S_IFSOCK = FileType.regularFile ∧
    FileType.regularFile ≠ FileType.socket := by
  constructor
  · rfl
  · intro h
    cases h

/-- C8 (amended): the conversion maps the symlink, regular, block-device,
directory, char-device and named-pipe type bits 1:1; socket and any
unknown type bits map to regular file. -/
theorem to_fuse_file_type_amended_spec (mode : Nat) :
    (mode &&& S_IFMT = S_IFLNK → to_fuse_file_type mode = .symlink) ∧
    (mode &&& S_IFMT = S_IFREG → to_fuse_file_type mode = .regularFile) ∧
    (mode &&& S_IFMT = S_IFBLK → to_fuse_file_type mode = .blockDevice) ∧
    (mode &&& S_IFMT = S_IFDIR → to_fuse_file_type mode = .directory) ∧
    (mode &&& S_IFMT = S_IFCHR → to_fuse_file_type mode = .charDevice) ∧
    (mode &&& S_IFMT = S_IFIFO → to_fuse_file_type mode = .namedPipe) ∧
    (mode &&& S_IFMT ≠ S_IFLNK → mode &&& S_IFMT ≠ S_IFREG → mode &&& S_IFMT ≠ S_IFBLK →
      mode &&& S_IFMT ≠ S_IFDIR → mode &&& S_IFMT ≠ S_IFCHR → mode &&& S_IFMT ≠ S_IFIFO →
      to_fuse_file_type mode = .regularFile) := by
  refine ⟨fun h => ?_, fun h => ?_, fun h => ?_, fun h => ?_, fun h => ?_, fun h => ?_,
    fun h1 h2 h3 h4 h5 h6 => ?_⟩ <;>
    simp_all [to_fuse_file_type, S_IFLNK, S_IFREG, S_IFBLK, S_IFDIR, S_IFCHR, S_IFIFO]

/-- Witness: the amended mapping applied to a socket mode and to a
regular-file mode. -/
theorem to_fuse_file_type_amended_witness :
    to_fuse_file_type 0o140755 = FileType.regularFile ∧
    to_fuse_file_type 0o100644 = FileType.regularFile :=
  ⟨(to_fuse_file_type_amended_spec 0o140755).2.2.2.2.2.2 (by decide) (by decide) (by decide)
      (by decide) (by decide) (by decide),
   (to_fuse_file_type_amended_spec 0o100644).2.1 (by decide)⟩

/-- C7 (code bug): the open-flags test of `ShowFS::open` is
`flags & O_RDONLY != 0` with `O_RDONLY == 0`, so it rejects nothing — a
write-mode open (`O_WRONLY`) proceeds, while the intended check
`(flags & O_ACCMODE) != O_RDONLY` rejects it. -/
theorem open_flags_check_never_rejects :
    (∀ flags, open_flags_rejected flags = false) ∧
    open_flags_rejected O_WRONLY = false ∧
    open_flags_rejected_intended O_WRONLY = true := by
  refine ⟨fun flags => ?_, rfl, rfl⟩
  simp [open_flags_rejected, O_RDONLY]

end ShowFS
